import Mathlib

/-!
Verification of `tf2onnx/tf_utils.py` (TensorFlow-to-ONNX conversion
utilities): a shallow embedding of the module's data model and functions,
followed by theorems settling the specification claims.

Conventions of the embedding:
* TensorFlow `DataType` enum values and ONNX `TensorProto.DataType` enum
  values are `Nat` (the protobuf enum numbers).
* Python `None` is `Option.none`; Python truthiness of an integer type code
  is "nonzero", of a list is "nonempty".
* Python dicts keyed by strings are association lists updated by `upsert`
  (in-place overwrite of an existing key, append of a new key — Python
  insertion-order semantics).
* Fallible Python code (KeyError on a missing table key, the bare-except
  re-raise paths, `make_sure` failures) is modelled with `Except String`.
-/

deriving instance DecidableEq for Except

/-! ## TensorFlow `types_pb2` DataType enum values (protobuf numbers) -/

def DT_FLOAT : Nat := 1

def DT_DOUBLE : Nat := 2

def DT_INT32 : Nat := 3

def DT_UINT8 : Nat := 4

def DT_INT16 : Nat := 5

def DT_INT8 : Nat := 6

def DT_STRING : Nat := 7

def DT_COMPLEX64 : Nat := 8

def DT_INT64 : Nat := 9

def DT_BOOL : Nat := 10

def DT_QUINT8 : Nat := 12

def DT_UINT16 : Nat := 17

def DT_COMPLEX128 : Nat := 18

def DT_HALF : Nat := 19

def DT_RESOURCE : Nat := 20

/-! ## ONNX `TensorProto.DataType` enum values -/

def onnx_FLOAT : Nat := 1

def onnx_UINT8 : Nat := 2

def onnx_INT8 : Nat := 3

def onnx_UINT16 : Nat := 4

def onnx_INT16 : Nat := 5

def onnx_INT32 : Nat := 6

def onnx_INT64 : Nat := 7

def onnx_STRING : Nat := 8

def onnx_BOOL : Nat := 9

def onnx_FLOAT16 : Nat := 10

def onnx_DOUBLE : Nat := 11

def onnx_COMPLEX64 : Nat := 14

def onnx_COMPLEX128 : Nat := 15

/-- The fixed `TF_TO_ONNX_DTYPE` lookup table, in source order
(`tf_utils.py` lines 33-49).  `DT_RESOURCE` maps to INT64 and `DT_QUINT8`
to UINT8 as deliberate stand-ins, exactly as in the source. -/
def TF_TO_ONNX_DTYPE : List (Nat × Nat) :=
  [(DT_FLOAT, onnx_FLOAT),
   (DT_HALF, onnx_FLOAT16),
   (DT_DOUBLE, onnx_DOUBLE),
   (DT_INT32, onnx_INT32),
   (DT_INT16, onnx_INT16),
   (DT_INT8, onnx_INT8),
   (DT_UINT8, onnx_UINT8),
   (DT_UINT16, onnx_UINT16),
   (DT_INT64, onnx_INT64),
   (DT_STRING, onnx_STRING),
   (DT_COMPLEX64, onnx_COMPLEX64),
   (DT_COMPLEX128, onnx_COMPLEX128),
   (DT_BOOL, onnx_BOOL),
   (DT_RESOURCE, onnx_INT64),
   (DT_QUINT8, onnx_UINT8)]

/-- Embedding of `map_tf_dtype` (`tf_utils.py` lines 110-113):
```
def map_tf_dtype(dtype):
    if dtype:
        dtype = TF_TO_ONNX_DTYPE[dtype]
    return dtype
```
The input is `none` for Python `None`, `some d` for an integer type code.
Python truthiness: `None` and `0` are falsy and are returned unchanged;
for a truthy (nonzero) code the dict lookup either succeeds or raises
`KeyError` (the spec's `UnsupportedTypeError`), modelled as `.error`. -/
def map_tf_dtype (dtype : Option Nat) : Except String (Option Nat) :=
  match dtype with
  | none => .ok none
  | some d =>
    if d ≠ 0 then
      match TF_TO_ONNX_DTYPE.lookup d with
      | some v => .ok (some v)
      | none => .error "UnsupportedTypeError"
    else .ok (some d)

/-- The transform list built by `tf_optimize` (`tf_utils.py` lines 130-140)
and handed to the external `TransformGraph` pipeline.  The subgraph
extraction and the pipeline itself are external collaborators; the list of
transform names is what this module decides. -/
def tf_optimize_transforms (fold_constant : Bool) : List String :=
  let transforms : List String := []
  let transforms := if fold_constant then
      transforms ++ ["fold_constants(ignore_errors=true)",
                     "remove_attribute(attribute_name=_class)"]
    else transforms
  transforms ++ ["fold_batch_norms", "fold_old_batch_norms"]

/-! ## Python dict model

Association lists with Python-dict update semantics: assigning to an
existing key overwrites in place (keeping its position), assigning to a
new key appends. -/

def upsert {α : Type} (m : List (String × α)) (k : String) (v : α) :
    List (String × α) :=
  match m with
  | [] => [(k, v)]
  | (k', v') :: rest =>
    if k' = k then (k, v) :: rest else (k', v') :: upsert rest k v

/-- Key list of an association list (Python `dict.keys()`). -/
def keysOf {α : Type} (m : List (String × α)) : List String :=
  m.map Prod.fst

/-- Python `Counter[k] += 1`. -/
def bump (m : List (String × Nat)) (k : String) : List (String × Nat) :=
  match m.lookup k with
  | some n => upsert m k (n + 1)
  | none => upsert m k 1

/-! ## Tensor model

`tensor_util.MakeNdarray` (external TensorFlow) decodes a `TensorProto`
into a numpy ndarray; the embedding carries a tensor attribute directly as
its decoded ndarray view `NdArray`: a dims list, the numpy dtype class
(object vs numeric), and the flat element list. -/

/-- One ndarray element: a numeric value, or (in an `object`-dtype array)
an arbitrary Python object together with the result of coercing it to
text (`str()`), which is `none` when the coercion raises. -/
inductive NdElem where
  | num (v : Int)
  | obj (coerced : Option String)
deriving Repr, DecidableEq

structure NdArray where
  dims : List Nat
  isObject : Bool
  elems : List NdElem
deriving Repr, DecidableEq

/-- Element-wise text coercion performed by
`np_data.astype(np.str)` (`tf_utils.py` line 59): `str()` of a number
always succeeds; an object element coerces exactly when it is
string-like. -/
def coerceElem : NdElem → Option String
  | .num v => some (toString v)
  | .obj c => c

/-- The `astype` coercion over the whole flat buffer: all elements must
coerce. -/
def coerceAll : List NdElem → Option (List String)
  | [] => some []
  | e :: rest =>
    match coerceElem e with
    | some s =>
      match coerceAll rest with
      | some rest' => some (s :: rest')
      | none => none
    | none => none

/-- The numeric value of an element (used on the non-object path, where
every element is numeric). -/
def elemNum : NdElem → Int
  | .num v => v
  | .obj _ => 0

/-! ## Attribute values

A TF node attribute as returned by `node.get_attr` — a loosely-typed
Python value.  `typ` is a single `DataType` code, `typeList` a list of
codes, `shapeAttr` a `TensorShapeProto` (an `unknown_rank` flag plus a
dim list), `tensor` a `TensorProto` (carried as its decoded `NdArray`),
and `raw` any other (truthy, non-type-code) attribute value. -/

inductive AttrValue where
  | typ (code : Nat)
  | typeList (codes : List Nat)
  | shapeAttr (unknownRank : Bool) (dims : List Int)
  | tensor (t : NdArray)
  | raw (tag : Nat)
deriving Repr, DecidableEq

/-- The ONNX `TensorProto` produced by `numpy_helper.from_array`
(external onnx library): a name, the dims, and — per the spec's Tensor
Codec contract — the verbatim copy of the flat buffer (numeric case) or
the decoded text elements (string case). -/
structure OnnxTensor where
  name : String
  dims : List Nat
  isString : Bool
  numVals : List Int
  strVals : List String
deriving Repr, DecidableEq

/-- Embedding of `get_tf_tensor_data` (`tf_utils.py` lines 65-70):
`make_sure` that the
value is a `TensorProto` (else the failure propagates), then
`MakeNdarray` it. -/
def get_tf_tensor_data (tensor : AttrValue) : Except String NdArray :=
  match tensor with
  | .tensor nd => .ok nd
  | _ => .error "Require TensorProto"

/-- Embedding of `tf_to_onnx_tensor` (`tf_utils.py` lines 52-62): get the
ndarray; on
`object` dtype coerce every element to text (`astype(np.str)`), raising
`RuntimeError("Not support type: ...")` when some element cannot be
coerced; then `numpy_helper.from_array(np_data, name=name)` — a verbatim
copy of dims and buffer under the given name. -/
def tf_to_onnx_tensor (tensor : AttrValue) (name : String) :
    Except String OnnxTensor :=
  match get_tf_tensor_data tensor with
  | .error e => .error e
  | .ok np_data =>
    if np_data.isObject then
      match coerceAll np_data.elems with
      | some strs =>
        .ok { name := name, dims := np_data.dims, isString := true,
              numVals := [], strVals := strs }
      | none => .error "Not support type"
    else
      .ok { name := name, dims := np_data.dims, isString := false,
            numVals := np_data.elems.map elemNum, strVals := [] }

/-- The Python signature is `def tf_to_onnx_tensor(tensor, name=""):` —
the default for the `name` parameter is the empty string. -/
def tf_to_onnx_tensor_default_name : String := ""

/-- A call of `tf_to_onnx_tensor` that does not supply the optional
`name` argument. -/
def tf_to_onnx_tensor_noname (tensor : AttrValue) : Except String OnnxTensor :=
  tf_to_onnx_tensor tensor tf_to_onnx_tensor_default_name

/-! ## Outputs and shapes -/

/-- One `node.outputs` entry: its name (TF port name like `"n:0"`), its
declared dtype code (`out.dtype`), and the result of
`out.get_shape().as_list()` — `none` when `get_shape`/`as_list` raises
(unknown rank), `some dims` otherwise (`-1` for an unknown dimension). -/
structure TFOutput where
  name : String
  dtype : Nat
  shapeResult : Option (List Int)
deriving Repr, DecidableEq

/-- Embedding of `get_tf_tensor_shape` (`tf_utils.py` lines 101-107):
return
`tensor.get_shape().as_list()`, degrading any exception to `None`. -/
def get_tf_tensor_shape (tensor : TFOutput) : Option (List Int) :=
  tensor.shapeResult

/-- Python `shape_override.get(out.name)`: `None` both when the key is
absent and when the stored value is itself `None`. -/
def overrideGet (ov : List (String × Option (List Int))) (k : String) :
    Option (List Int) :=
  match ov.lookup k with
  | some v => v
  | none => none

/-- The per-output shape resolution of `tflist_to_onnx`
(`tf_utils.py` lines 171-173):
```
shape = shape_override.get(out.name)
if shape is None:
    shape = get_tf_tensor_shape(out)
```
-/
def resolve_output_shape (shape_override : List (String × Option (List Int)))
    (out : TFOutput) : Option (List Int) :=
  match overrideGet shape_override out.name with
  | some s => some s
  | none => get_tf_tensor_shape out

/-! ## Nodes -/

/-- A TF graph node as consumed by `tflist_to_onnx`: a name, an operator
type tag, the input names, the outputs, and the `node_def.attr` bag
(a protobuf map; iterated in list order, names unique). -/
structure TFNode where
  name : String
  type : String
  inputs : List String
  outputs : List TFOutput
  attrs : List (String × AttrValue)
deriving Repr, DecidableEq

/-- Embedding of `get_tf_shape_attr` (`tf_utils.py` lines 89-98): read the
attribute
literally named `"shape"`; when it is a shape message of known rank
return its dim sizes; when it reports unknown rank, is absent, or is
malformed (any exception), return `None`. -/
def get_tf_shape_attr (node : TFNode) : Option (List Int) :=
  match node.attrs.lookup "shape" with
  | some (.shapeAttr unknownRank dims) =>
    if unknownRank then none else some dims
  | _ => none

/-- Modelled from the spec: `port_name` is imported from `tf2onnx.utils`,
which is not under `src/`.  The spec's glossary defines a port name as "a
derived identifier for one specific output of a node, combining the
node's name with an output index", with the output index implicit
(index 0) at the call site `port_name(node.name)`. -/
def port_name (name : String) : String := name ++ ":0"

/-- The `ignored_attr` drop-list of `tflist_to_onnx`
(`tf_utils.py` lines 154-157), verbatim. -/
def ignored_attr : List String :=
  ["unknown_rank", "_class", "Tshape", "use_cudnn_on_gpu", "Index",
   "Tpaddings", "TI", "Tparams", "Tindices", "Tlen", "Tdim",
   "dynamic_size", "Tmultiples", "Tblock_shape", "Tcrops", "index_type",
   "Taxis", "U", "maxval", "Tout", "Tlabels", "Tindex", "element_shape",
   "Targmax"]

/-- A value stored in the converted attribute dict: the result of
`map_tf_dtype` (`mappedType`), a parsed shape (`shapeVal`), an embedded
ONNX tensor (`tensorVal`), or the original value copied unchanged
(`rawVal`). -/
inductive OnnxAttr where
  | mappedType (v : Option Nat)
  | shapeVal (dims : List Int)
  | tensorVal (t : OnnxTensor)
  | rawVal (v : AttrValue)
deriving Repr, DecidableEq

/-- The function `map_tf_dtype` applied to a decoded attribute value (the
dynamic
Python call `map_tf_dtype(get_tf_node_attr(node, a))`): a type code goes
through the table (`map_tf_dtype`); a falsy value (an empty list) is
returned unchanged; any truthy non-code value makes the dict lookup
raise (unhashable key or `KeyError`). -/
def map_tf_dtype_attr (v : AttrValue) : Except String OnnxAttr :=
  match v with
  | .typ c =>
    match map_tf_dtype (some c) with
    | .ok r => .ok (.mappedType r)
    | .error e => .error e
  | .typeList codes =>
    if codes.isEmpty then .ok (.rawVal v) else .error "UnsupportedTypeError"
  | _ => .error "UnsupportedTypeError"

/-- Python truthiness of a decoded attribute value: `0` and the empty
list are falsy; everything else the source meets here is truthy. -/
def attrTruthy : AttrValue → Bool
  | .typ c => c ≠ 0
  | .typeList codes => !codes.isEmpty
  | _ => true

/-- State threaded through the attribute loop of `tflist_to_onnx`: the
per-node `attr` dict under construction, plus the two tables it mutates
(`dtypes` and `attr_cnt`). -/
structure AttrState where
  attr : List (String × OnnxAttr)
  dtypes : List (String × Option Nat)
  attr_cnt : List (String × Nat)
deriving Repr, DecidableEq

/-- One iteration of the attribute loop of `tflist_to_onnx`
(`tf_utils.py` lines 182-211), branch-for-branch:
`attr_cnt[a] += 1`, then the `if/elif` chain on the attribute name
`a` (with `v` its value): `"dtype"` stores the type-mapped value;
`"T"` records a truthy non-list type into `dtypes[node.name]` (nothing
into `attr`); the output/index type names store the type-mapped value;
`"shape"` stores `get_tf_shape_attr(node)` only when that is not `None`;
`"Tperm"` is dropped; `"value"` stores the tensor-codec result named
`port_name(node.name)`; `"DstT"` stores under the key `"to"`; `"SrcT"`
and the `ignored_attr` names are dropped; anything else is copied raw. -/
def convert_attr (node : TFNode) (st : AttrState) (p : String × AttrValue) :
    Except String AttrState :=
  let a := p.1
  let v := p.2
  let st := { st with attr_cnt := bump st.attr_cnt a }
  if a = "dtype" then
    match map_tf_dtype_attr v with
    | .ok r => .ok { st with attr := upsert st.attr a r }
    | .error e => .error e
  else if a = "T" then
    if attrTruthy v then
      match v with
      | .typeList _ => .ok st
      | .typ c =>
        match map_tf_dtype (some c) with
        | .ok m => .ok { st with dtypes := upsert st.dtypes node.name m }
        | .error e => .error e
      | _ => .error "UnsupportedTypeError"
    else .ok st
  else if a ∈ ["output_type", "output_dtype", "out_type", "Tidx", "out_idx"]
  then
    match map_tf_dtype_attr v with
    | .ok r => .ok { st with attr := upsert st.attr a r }
    | .error e => .error e
  else if a = "shape" then
    match get_tf_shape_attr node with
    | some shape => .ok { st with attr := upsert st.attr a (.shapeVal shape) }
    | none => .ok st
  else if a = "Tperm" then .ok st
  else if a = "value" then
    match tf_to_onnx_tensor v (port_name node.name) with
    | .ok t => .ok { st with attr := upsert st.attr a (.tensorVal t) }
    | .error e => .error e
  else if a = "DstT" then
    match map_tf_dtype_attr v with
    | .ok r => .ok { st with attr := upsert st.attr "to" r }
    | .error e => .error e
  else if a = "SrcT" then .ok st
  else if a ∈ ignored_attr then .ok st
  else .ok { st with attr := upsert st.attr a (.rawVal v) }

/-- Embedding of `helper.make_node(node.type, input_names, output_names,
name=node.name, **attr)` (external onnx helper): the assembled target
node. -/
structure OnnxNode where
  op_type : String
  input : List String
  output : List String
  name : String
  attrs : List (String × OnnxAttr)
deriving Repr, DecidableEq

def make_node (op_type : String) (input output : List String)
    (name : String) (attrs : List (String × OnnxAttr)) : OnnxNode :=
  { op_type := op_type, input := input, output := output, name := name,
    attrs := attrs }

/-- A Python `for` loop whose body may raise: fold in the `Except`
monad, stopping at the first error. -/
def foldE {σ α : Type} (f : σ → α → Except String σ) :
    σ → List α → Except String σ
  | s, [] => .ok s
  | s, x :: xs =>
    match f s x with
    | .ok s' => foldE f s' xs
    | .error e => .error e

/-- State threaded through the node loop of `tflist_to_onnx`. -/
structure ConvState where
  onnx_nodes : List OnnxNode
  op_cnt : List (String × Nat)
  attr_cnt : List (String × Nat)
  dtypes : List (String × Option Nat)
deriving Repr, DecidableEq

/-- One iteration of the node loop of `tflist_to_onnx`
(`tf_utils.py` lines 178-221): bump `op_cnt[node.type]`, run the
attribute loop, then `make_node` with the node's input/output names and
name (`takeit` is always `True`; a `make_node` failure would be logged
and re-raised, aborting the pass). -/
def convert_node (st : ConvState) (node : TFNode) : Except String ConvState :=
  let op_cnt := bump st.op_cnt node.type
  match foldE (convert_attr node) ⟨[], st.dtypes, st.attr_cnt⟩ node.attrs with
  | .ok ast =>
    let input_names := node.inputs
    let output_names := node.outputs.map TFOutput.name
    let onnx_node := make_node node.type input_names output_names node.name
      ast.attr
    .ok { onnx_nodes := st.onnx_nodes ++ [onnx_node], op_cnt := op_cnt,
          attr_cnt := ast.attr_cnt, dtypes := ast.dtypes }
  | .error e => .error e

/-- One iteration of the output-scan loop of `tflist_to_onnx`
(`tf_utils.py` lines 169-175): resolve the shape (override first, then
static shape), record `dtypes[out.name] = map_tf_dtype(out.dtype)` and
`output_shapes[out.name] = shape`. -/
def scan_output (shape_override : List (String × Option (List Int)))
    (st : List (String × Option (List Int)) × List (String × Option Nat))
    (out : TFOutput) :
    Except String
      (List (String × Option (List Int)) × List (String × Option Nat)) :=
  let shape := resolve_output_shape shape_override out
  match map_tf_dtype (some out.dtype) with
  | .ok m =>
    .ok (upsert st.1 out.name shape, upsert st.2 out.name m)
  | .error e => .error e

/-- The outer output-scan loop over one node's outputs. -/
def scan_node (shape_override : List (String × Option (List Int)))
    (st : List (String × Option (List Int)) × List (String × Option Nat))
    (node : TFNode) :
    Except String
      (List (String × Option (List Int)) × List (String × Option Nat)) :=
  foldE (scan_output shape_override) st node.outputs

/-- The output names of one node, in order (`[i.name for i in
node.outputs]`). -/
def node_output_names (n : TFNode) : List String :=
  n.outputs.map TFOutput.name

/-- All output names of a node list. -/
def all_output_names : List TFNode → List String
  | [] => []
  | n :: rest => node_output_names n ++ all_output_names rest

/-- Node names of a node list. -/
def node_names (ops : List TFNode) : List String :=
  ops.map TFNode.name

/-- The full result of `tflist_to_onnx`:
`(onnx_nodes, op_cnt, attr_cnt, output_shapes, dtypes)`. -/
structure ConvResult where
  onnx_nodes : List OnnxNode
  op_cnt : List (String × Nat)
  attr_cnt : List (String × Nat)
  output_shapes : List (String × Option (List Int))
  dtypes : List (String × Option Nat)
deriving Repr, DecidableEq

/-- Embedding of `tflist_to_onnx` (`tf_utils.py` lines 147-223): first the
output
scan building `output_shapes` and `dtypes` for every output of every
node, then the node loop converting each node's attributes and
assembling the ONNX nodes.  Any raised error aborts the whole pass. -/
def tflist_to_onnx (node_list : List TFNode)
    (shape_override : List (String × Option (List Int))) :
    Except String ConvResult :=
  let ops := node_list
  match foldE (scan_node shape_override) ([], []) ops with
  | .ok (output_shapes, dtypes) =>
    match foldE convert_node ⟨[], [], [], dtypes⟩ ops with
    | .ok st =>
      .ok { onnx_nodes := st.onnx_nodes, op_cnt := st.op_cnt,
            attr_cnt := st.attr_cnt, output_shapes := output_shapes,
            dtypes := st.dtypes }
    | .error e => .error e
  | .error e => .error e

/-! ## Concrete instances used by the claim theorems -/

/-- A `Const`-like node holding a string tensor with a non-coercible
element. -/
def c5_node : TFNode :=
  ⟨"s", "Const", [], [⟨"s:0", DT_STRING, some [1]⟩],
   [("value", .tensor ⟨[1], true, [.obj none]⟩)]⟩

/-- A placeholder-style node whose `"shape"` attribute reports unknown
rank. -/
def c7_node : TFNode :=
  ⟨"p", "Placeholder", [], [⟨"p:0", DT_FLOAT, none⟩],
   [("shape", .shapeAttr true []), ("dtype", .typ DT_FLOAT)]⟩

/-- The conversion result for `[c7_node]`. -/
def c7_R : ConvResult :=
  ⟨[⟨"Placeholder", [], ["p:0"], "p",
     [("dtype", .mappedType (some 1))]⟩],
   [("Placeholder", 1)], [("shape", 1), ("dtype", 1)],
   [("p:0", none)], [("p:0", some 1)]⟩

/-- A `Cast`-like node carrying `"DstT"` and also a literal `"to"`
attribute. -/
def c6_node : TFNode :=
  ⟨"c", "Cast", [], [⟨"c:0", DT_INT32, some []⟩],
   [("DstT", .typ DT_FLOAT), ("to", .raw 0)]⟩

/-- A well-formed `Cast` node: `"SrcT"` and `"DstT"` only. -/
def c6w_node : TFNode :=
  ⟨"c", "Cast", [], [⟨"c:0", DT_INT32, some []⟩],
   [("SrcT", .typ DT_INT32), ("DstT", .typ DT_FLOAT)]⟩

/-- The conversion result for `[c6w_node]`. -/
def c6_R : ConvResult :=
  ⟨[⟨"Cast", [], ["c:0"], "c", [("to", .mappedType (some 1))]⟩],
   [("Cast", 1)], [("SrcT", 1), ("DstT", 1)],
   [("c:0", some [])], [("c:0", some 6)]⟩

/-- A numeric tensor value. -/
def c8_tensor : AttrValue := .tensor ⟨[2], false, [.num 5, .num 7]⟩

/-- A `Const` node holding a numeric tensor in its `"value"`
attribute. -/
def c8_node : TFNode :=
  ⟨"k", "Const", [], [⟨"k:0", DT_INT32, some [2]⟩],
   [("value", .tensor ⟨[2], false, [.num 5, .num 7]⟩),
    ("dtype", .typ DT_INT32)]⟩

/-- The conversion result for `[c8_node]`. -/
def c8_R : ConvResult :=
  ⟨[⟨"Const", [], ["k:0"], "k",
     [("value", .tensorVal ⟨"k:0", [2], false, [5, 7], []⟩),
      ("dtype", .mappedType (some 6))]⟩],
   [("Const", 1)], [("value", 1), ("dtype", 1)],
   [("k:0", some [2])], [("k:0", some 6)]⟩

/-- A node with a (truthy, non-list) `"T"` attribute. -/
def c1_node : TFNode :=
  ⟨"n", "X", [], [⟨"n:0", DT_FLOAT, some []⟩], [("T", .typ DT_FLOAT)]⟩

/-- The conversion result for `[c1_node]`. -/
def c1_R : ConvResult :=
  ⟨[⟨"X", [], ["n:0"], "n", []⟩], [("X", 1)], [("T", 1)],
   [("n:0", some [])], [("n:0", some 1), ("n", some 1)]⟩

/-- A node with static shape `[2, 3]` on its single output. -/
def c2_node : TFNode :=
  ⟨"n", "X", [], [⟨"n:0", DT_FLOAT, some [2, 3]⟩], []⟩

/-- A shape-override table that *contains* an entry for `"n:0"`, with
value `None`. -/
def c2_ov : List (String × Option (List Int)) := [("n:0", none)]

/-- The conversion result for `[c2_node]` under `c2_ov`. -/
def c2_R : ConvResult :=
  ⟨[⟨"X", [], ["n:0"], "n", []⟩], [("X", 1)], [],
   [("n:0", some [2, 3])], [("n:0", some 1)]⟩

/-! ## Association-list and loop lemmas -/

theorem lookup_upsert_self {α : Type} (m : List (String × α)) (k : String)
    (v : α) : (upsert m k v).lookup k = some v := by
  induction m with
  | nil => simp [upsert, List.lookup]
  | cons p rest ih =>
    obtain ⟨k', v'⟩ := p
    by_cases h : k' = k
    · subst h
      simp [upsert, List.lookup]
    · simp only [upsert, if_neg h, List.lookup]
      have : (k == k') = false := by
        simp [beq_eq_false_iff_ne]
        exact fun hkk => h hkk.symm
      simp [this, ih]

theorem lookup_upsert_ne {α : Type} (m : List (String × α)) (k k' : String)
    (v : α) (h : k' ≠ k) : (upsert m k v).lookup k' = m.lookup k' := by
  have hbeq : (k' == k) = false := beq_eq_false_iff_ne.mpr h
  induction m with
  | nil =>
    simp [upsert, List.lookup, hbeq]
  | cons p rest ih =>
    obtain ⟨ka, va⟩ := p
    by_cases hk : ka = k
    · subst hk
      simp [upsert, List.lookup, hbeq]
    · simp only [upsert, if_neg hk, List.lookup, ih]

theorem mem_keys_upsert {α : Type} (m : List (String × α)) (k x : String)
    (v : α) : x ∈ keysOf (upsert m k v) ↔ x ∈ keysOf m ∨ x = k := by
  induction m with
  | nil => simp [upsert, keysOf]
  | cons p rest ih =>
    obtain ⟨ka, va⟩ := p
    by_cases hk : ka = k
    · subst hk
      simp [upsert, keysOf]
      tauto
    · simp only [upsert, if_neg hk, keysOf, List.map_cons, List.mem_cons] at *
      tauto

theorem foldE_inv {σ α : Type} {f : σ → α → Except String σ}
    (P : σ → Prop) {xs : List α} {s s' : σ}
    (hf : ∀ t x t', x ∈ xs → f t x = .ok t' → P t → P t')
    (h : foldE f s xs = .ok s') (hs : P s) : P s' := by
  induction xs generalizing s with
  | nil =>
    simp [foldE] at h
    exact h ▸ hs
  | cons x rest ih =>
    simp only [foldE] at h
    cases hx : f s x with
    | ok s1 =>
      rw [hx] at h
      exact ih (fun t y t' hy => hf t y t' (List.mem_cons_of_mem x hy)) h
        (hf s x s1 (List.mem_cons_self x rest) hx hs)
    | error e => rw [hx] at h; cases h

theorem foldE_ok_of_mem {σ α : Type} {f : σ → α → Except String σ}
    {xs : List α} {s s' : σ} (h : foldE f s xs = .ok s') {x : α}
    (hx : x ∈ xs) : ∃ t t', f t x = .ok t' := by
  induction xs generalizing s with
  | nil => cases hx
  | cons y rest ih =>
    simp only [foldE] at h
    cases hy : f s y with
    | ok s1 =>
      rw [hy] at h
      rcases List.mem_cons.mp hx with hxy | hxr
      · exact ⟨s, s1, hxy ▸ hy⟩
      · exact ih h hxr
    | error e => rw [hy] at h; cases h

theorem foldE_append {σ α : Type} (f : σ → α → Except String σ) (s : σ)
    (l1 l2 : List α) :
    foldE f s (l1 ++ l2) =
      match foldE f s l1 with
      | .ok s1 => foldE f s1 l2
      | .error e => .error e := by
  induction l1 generalizing s with
  | nil => simp [foldE]
  | cons x rest ih =>
    simp only [List.cons_append, foldE]
    cases hx : f s x with
    | ok s1 => simp [ih]
    | error e => simp

theorem foldE_append_ok {σ α : Type} {f : σ → α → Except String σ}
    {s s' : σ} {l1 l2 : List α} (h : foldE f s (l1 ++ l2) = .ok s') :
    ∃ s1, foldE f s l1 = .ok s1 ∧ foldE f s1 l2 = .ok s' := by
  rw [foldE_append] at h
  cases h1 : foldE f s l1 with
  | ok s1 => rw [h1] at h; exact ⟨s1, rfl, h⟩
  | error e => rw [h1] at h; cases h

/-! ## Lemmas about the output scan (pass 1) -/

theorem scan_output_ok {ov : List (String × Option (List Int))}
    {t : List (String × Option (List Int)) × List (String × Option Nat)}
    {out : TFOutput}
    {t' : List (String × Option (List Int)) × List (String × Option Nat)}
    (h : scan_output ov t out = .ok t') :
    t'.1 = upsert t.1 out.name (resolve_output_shape ov out) ∧
    ∃ m, map_tf_dtype (some out.dtype) = .ok m ∧
      t'.2 = upsert t.2 out.name m := by
  unfold scan_output at h
  cases hm : map_tf_dtype (some out.dtype) with
  | ok m =>
    rw [hm] at h
    cases h
    exact ⟨rfl, m, rfl, rfl⟩
  | error e => rw [hm] at h; cases h

theorem mem_all_output_names {ops : List TFNode} {n : TFNode}
    (hn : n ∈ ops) {out : TFOutput} (hout : out ∈ n.outputs) :
    out.name ∈ all_output_names ops := by
  induction ops with
  | nil => cases hn
  | cons m rest ih =>
    rcases List.mem_cons.mp hn with h | h
    · subst h
      simp only [all_output_names, List.mem_append]
      exact Or.inl (List.mem_map.mpr ⟨out, hout, rfl⟩)
    · simp only [all_output_names, List.mem_append]
      exact Or.inr (ih h)

/-- Keys added by the output scan are output names (both tables). -/
theorem scan_fold_keys_subset {ov : List (String × Option (List Int))}
    {ops : List TFNode}
    {t t' : List (String × Option (List Int)) × List (String × Option Nat)}
    (h : foldE (scan_node ov) t ops = .ok t') (x : String) :
    (x ∈ keysOf t'.1 → x ∈ keysOf t.1 ∨ x ∈ all_output_names ops) ∧
    (x ∈ keysOf t'.2 → x ∈ keysOf t.2 ∨ x ∈ all_output_names ops) := by
  refine foldE_inv (fun t1 :
      List (String × Option (List Int)) × List (String × Option Nat) =>
    (x ∈ keysOf t1.1 → x ∈ keysOf t.1 ∨ x ∈ all_output_names ops) ∧
    (x ∈ keysOf t1.2 → x ∈ keysOf t.2 ∨ x ∈ all_output_names ops))
    ?_ h ⟨fun hx => Or.inl hx, fun hx => Or.inl hx⟩
  intro s n s' hn hstep hP
  refine foldE_inv (fun t1 :
      List (String × Option (List Int)) × List (String × Option Nat) =>
    (x ∈ keysOf t1.1 → x ∈ keysOf t.1 ∨ x ∈ all_output_names ops) ∧
    (x ∈ keysOf t1.2 → x ∈ keysOf t.2 ∨ x ∈ all_output_names ops))
    ?_ hstep hP
  intro s2 out s2' hout hso hP2
  obtain ⟨h1, m, _, h2⟩ := scan_output_ok hso
  constructor
  · intro hx
    rw [h1] at hx
    rcases (mem_keys_upsert _ _ _ _).mp hx with hx | hx
    · exact hP2.1 hx
    · exact Or.inr (hx ▸ mem_all_output_names hn hout)
  · intro hx
    rw [h2] at hx
    rcases (mem_keys_upsert _ _ _ _).mp hx with hx | hx
    · exact hP2.2 hx
    · exact Or.inr (hx ▸ mem_all_output_names hn hout)

/-- The output scan never removes keys (both tables). -/
theorem scan_fold_keys_mono {ov : List (String × Option (List Int))}
    {ops : List TFNode}
    {t t' : List (String × Option (List Int)) × List (String × Option Nat)}
    (h : foldE (scan_node ov) t ops = .ok t') (x : String) :
    (x ∈ keysOf t.1 → x ∈ keysOf t'.1) ∧
    (x ∈ keysOf t.2 → x ∈ keysOf t'.2) := by
  refine foldE_inv (fun t1 :
      List (String × Option (List Int)) × List (String × Option Nat) =>
    (x ∈ keysOf t.1 → x ∈ keysOf t1.1) ∧
    (x ∈ keysOf t.2 → x ∈ keysOf t1.2)) ?_ h ⟨id, id⟩
  intro s n s' _ hstep hP
  refine foldE_inv (fun t1 :
      List (String × Option (List Int)) × List (String × Option Nat) =>
    (x ∈ keysOf t.1 → x ∈ keysOf t1.1) ∧
    (x ∈ keysOf t.2 → x ∈ keysOf t1.2)) ?_ hstep hP
  intro s2 out s2' _ hso hP2
  obtain ⟨h1, m, _, h2⟩ := scan_output_ok hso
  constructor
  · intro hx
    rw [h1]
    exact (mem_keys_upsert _ _ _ _).mpr (Or.inl (hP2.1 hx))
  · intro hx
    rw [h2]
    exact (mem_keys_upsert _ _ _ _).mpr (Or.inl (hP2.2 hx))

/-- Within one node, every output ends up as a key of both tables. -/
theorem scan_outputs_keys_cover {ov : List (String × Option (List Int))}
    {outs : List TFOutput} :
    ∀ {t t' : List (String × Option (List Int)) ×
        List (String × Option Nat)},
    foldE (scan_output ov) t outs = .ok t' → ∀ {out : TFOutput},
    out ∈ outs → out.name ∈ keysOf t'.1 ∧ out.name ∈ keysOf t'.2 := by
  induction outs with
  | nil =>
    intro t t' _ out hout
    cases hout
  | cons o os ih =>
    intro t t' h out hout
    simp only [foldE] at h
    cases ho : scan_output ov t o with
    | error e => rw [ho] at h; cases h
    | ok s2 =>
      rw [ho] at h
      obtain ⟨h1, mm, _, h2⟩ := scan_output_ok ho
      rcases List.mem_cons.mp hout with hc | hc
      · subst hc
        have base1 : out.name ∈ keysOf s2.1 := by
          rw [h1]
          exact (mem_keys_upsert _ _ _ _).mpr (Or.inr rfl)
        have base2 : out.name ∈ keysOf s2.2 := by
          rw [h2]
          exact (mem_keys_upsert _ _ _ _).mpr (Or.inr rfl)
        refine foldE_inv (fun t1 :
            List (String × Option (List Int)) ×
              List (String × Option Nat) =>
          out.name ∈ keysOf t1.1 ∧ out.name ∈ keysOf t1.2)
          ?_ h ⟨base1, base2⟩
        intro s3 o2 s3' _ hso hP
        obtain ⟨g1, m2, _, g2⟩ := scan_output_ok hso
        exact ⟨g1 ▸ (mem_keys_upsert _ _ _ _).mpr (Or.inl hP.1),
               g2 ▸ (mem_keys_upsert _ _ _ _).mpr (Or.inl hP.2)⟩
      · exact ih h hc

/-- Every output of every node ends up as a key of both tables. -/
theorem scan_fold_keys_cover {ov : List (String × Option (List Int))}
    {ops : List TFNode} :
    ∀ {t t' : List (String × Option (List Int)) ×
        List (String × Option Nat)},
    foldE (scan_node ov) t ops = .ok t' → ∀ {n : TFNode}, n ∈ ops →
    ∀ {out : TFOutput}, out ∈ n.outputs →
    out.name ∈ keysOf t'.1 ∧ out.name ∈ keysOf t'.2 := by
  induction ops with
  | nil =>
    intro t t' _ n hn
    cases hn
  | cons m rest ih =>
    intro t t' h n hn out hout
    simp only [foldE] at h
    cases hm : scan_node ov t m with
    | error e => rw [hm] at h; cases h
    | ok s1 =>
      rw [hm] at h
      rcases List.mem_cons.mp hn with hcase | hcase
      · subst hcase
        unfold scan_node at hm
        have hin := scan_outputs_keys_cover hm hout
        have hmono := scan_fold_keys_mono h out.name
        exact ⟨hmono.1 hin.1, hmono.2 hin.2⟩
      · exact ih h hcase hout

/-- Every recorded shape-table entry is the resolved shape of an output
with that name. -/
theorem scan_fold_shapes_char {ov : List (String × Option (List Int))}
    {ops : List TFNode}
    {t t' : List (String × Option (List Int)) × List (String × Option Nat)}
    (h : foldE (scan_node ov) t ops = .ok t')
    (hbase : ∀ x v, t.1.lookup x = some v →
      ∃ n ∈ ops, ∃ out ∈ n.outputs, out.name = x ∧
        v = resolve_output_shape ov out) :
    ∀ x v, t'.1.lookup x = some v →
      ∃ n ∈ ops, ∃ out ∈ n.outputs, out.name = x ∧
        v = resolve_output_shape ov out := by
  refine foldE_inv (fun t1 => ∀ x v, t1.1.lookup x = some v →
    ∃ n ∈ ops, ∃ out ∈ n.outputs, out.name = x ∧
      v = resolve_output_shape ov out) ?_ h hbase
  intro s n s' hn hstep hP
  refine foldE_inv (fun t1 => ∀ x v, t1.1.lookup x = some v →
    ∃ n ∈ ops, ∃ out ∈ n.outputs, out.name = x ∧
      v = resolve_output_shape ov out) ?_ hstep hP
  intro s2 out s2' hout hso hP2 x v hx
  obtain ⟨h1, m, _, _⟩ := scan_output_ok hso
  rw [h1] at hx
  by_cases hxname : x = out.name
  · subst hxname
    rw [lookup_upsert_self] at hx
    injection hx with hv
    exact ⟨n, hn, out, hout, rfl, hv.symm⟩
  · rw [lookup_upsert_ne _ _ _ _ hxname] at hx
    exact hP2 x v hx

/-! ## Lemmas about the attribute loop (pass 2) -/

/-- Effect summary of one attribute iteration: `dtypes` is unchanged or
upserted at the node's own name; the `attr` dict is unchanged, upserted
at the attribute's own name, or — for `"DstT"` — upserted at `"to"`;
`attr_cnt` is always bumped. -/
theorem convert_attr_master {node : TFNode} {t : AttrState}
    {p : String × AttrValue} {t' : AttrState}
    (h : convert_attr node t p = .ok t') :
    (t'.dtypes = t.dtypes ∨ ∃ m, t'.dtypes = upsert t.dtypes node.name m) ∧
    (t'.attr = t.attr ∨ (∃ r, t'.attr = upsert t.attr p.1 r) ∨
      (p.1 = "DstT" ∧ ∃ r, t'.attr = upsert t.attr "to" r)) ∧
    t'.attr_cnt = bump t.attr_cnt p.1 := by
  obtain ⟨a, v⟩ := p
  unfold convert_attr at h
  dsimp only at h
  split_ifs at h <;>
    (try split at h) <;>
    (try split at h) <;>
    (try cases h) <;>
    simp_all

/-- An attribute iteration for an attribute named neither `k` nor
(`"DstT"` with `k = "to"`) leaves the `attr` entry at `k` unchanged. -/
theorem convert_attr_lookup_preserve {node : TFNode} {t : AttrState}
    {p : String × AttrValue} {t' : AttrState} {k : String}
    (h : convert_attr node t p = .ok t') (hk : k ≠ p.1)
    (hd : ¬(p.1 = "DstT" ∧ k = "to")) :
    t'.attr.lookup k = t.attr.lookup k := by
  rcases (convert_attr_master h).2.1 with heq | ⟨r, heq⟩ | ⟨hp, r, heq⟩
  · rw [heq]
  · rw [heq, lookup_upsert_ne _ _ _ _ hk]
  · have hkto : k ≠ "to" := fun hkk => hd ⟨hp, hkk⟩
    rw [heq, lookup_upsert_ne _ _ _ _ hkto]

/-- No attribute iteration ever writes an `attr` entry named `"DstT"` or
`"SrcT"`. -/
theorem convert_attr_preserves_dstt_srct {node : TFNode} {t : AttrState}
    {p : String × AttrValue} {t' : AttrState}
    (h : convert_attr node t p = .ok t') :
    t'.attr.lookup "DstT" = t.attr.lookup "DstT" ∧
    t'.attr.lookup "SrcT" = t.attr.lookup "SrcT" := by
  obtain ⟨a, v⟩ := p
  unfold convert_attr at h
  dsimp only at h
  split_ifs at h <;>
    (try split at h) <;>
    (try split at h) <;>
    (try cases h) <;>
    (try simp_all [lookup_upsert_ne]) <;>
    (refine ⟨lookup_upsert_ne _ _ _ _ ?_, lookup_upsert_ne _ _ _ _ ?_⟩ <;>
      (rintro rfl; simp_all))

/-- The `"shape"` branch of the attribute loop, as an equation. -/
theorem convert_attr_shape_eq (node : TFNode) (t : AttrState)
    (v : AttrValue) :
    convert_attr node t ("shape", v) =
      (match get_tf_shape_attr node with
       | some shape =>
         .ok { attr := upsert t.attr "shape" (.shapeVal shape),
               dtypes := t.dtypes, attr_cnt := bump t.attr_cnt "shape" }
       | none =>
         .ok { attr := t.attr, dtypes := t.dtypes,
               attr_cnt := bump t.attr_cnt "shape" }) := rfl

/-- The `"value"` branch of the attribute loop, as an equation. -/
theorem convert_attr_value_eq (node : TFNode) (t : AttrState)
    (v : AttrValue) :
    convert_attr node t ("value", v) =
      (match tf_to_onnx_tensor v (port_name node.name) with
       | .ok ot =>
         .ok { attr := upsert t.attr "value" (.tensorVal ot),
               dtypes := t.dtypes, attr_cnt := bump t.attr_cnt "value" }
       | .error e => .error e) := rfl

/-- The `"DstT"` branch of the attribute loop, as an equation. -/
theorem convert_attr_dstt_eq (node : TFNode) (t : AttrState)
    (v : AttrValue) :
    convert_attr node t ("DstT", v) =
      (match map_tf_dtype_attr v with
       | .ok r =>
         .ok { attr := upsert t.attr "to" r, dtypes := t.dtypes,
               attr_cnt := bump t.attr_cnt "DstT" }
       | .error e => .error e) := rfl

/-- Entries at keys untouched by any iteration of the attribute loop
survive the loop. -/
theorem attr_fold_preserve {node : TFNode} {ps : List (String × AttrValue)}
    {t t' : AttrState} {k : String}
    (h : foldE (convert_attr node) t ps = .ok t')
    (hk : ∀ p ∈ ps, k ≠ p.1 ∧ ¬(p.1 = "DstT" ∧ k = "to")) :
    t'.attr.lookup k = t.attr.lookup k := by
  refine foldE_inv
    (fun t1 : AttrState => t1.attr.lookup k = t.attr.lookup k)
    ?_ h rfl
  intro s q s' hq hstep hP
  rw [convert_attr_lookup_preserve hstep (hk q hq).1 (hk q hq).2, hP]

/-- No run of the attribute loop ever creates a `"DstT"` or `"SrcT"`
entry. -/
theorem attr_fold_preserves_dstt_srct {node : TFNode}
    {ps : List (String × AttrValue)} {t t' : AttrState}
    (h : foldE (convert_attr node) t ps = .ok t') :
    t'.attr.lookup "DstT" = t.attr.lookup "DstT" ∧
    t'.attr.lookup "SrcT" = t.attr.lookup "SrcT" := by
  refine foldE_inv (fun t1 : AttrState =>
    t1.attr.lookup "DstT" = t.attr.lookup "DstT" ∧
    t1.attr.lookup "SrcT" = t.attr.lookup "SrcT") ?_ h ⟨rfl, rfl⟩
  intro s q s' _ hstep hP
  obtain ⟨h1, h2⟩ := convert_attr_preserves_dstt_srct hstep
  exact ⟨h1.trans hP.1, h2.trans hP.2⟩

/-- Keys of the `dtypes` table across the attribute loop: never removed,
only possibly extended by the node's own name. -/
theorem attr_fold_dtypes_keys {node : TFNode}
    {ps : List (String × AttrValue)} {t t' : AttrState}
    (h : foldE (convert_attr node) t ps = .ok t') (x : String) :
    (x ∈ keysOf t.dtypes → x ∈ keysOf t'.dtypes) ∧
    (x ∈ keysOf t'.dtypes → x ∈ keysOf t.dtypes ∨ x = node.name) := by
  refine foldE_inv (fun t1 : AttrState =>
    (x ∈ keysOf t.dtypes → x ∈ keysOf t1.dtypes) ∧
    (x ∈ keysOf t1.dtypes → x ∈ keysOf t.dtypes ∨ x = node.name))
    ?_ h ⟨id, Or.inl⟩
  intro s q s' _ hstep hP
  rcases (convert_attr_master hstep).1 with heq | ⟨m, heq⟩
  · rw [heq]
    exact hP
  · rw [heq]
    constructor
    · intro hx
      exact (mem_keys_upsert _ _ _ _).mpr (Or.inl (hP.1 hx))
    · intro hx
      rcases (mem_keys_upsert _ _ _ _).mp hx with hx | hx
      · exact hP.2 hx
      · exact Or.inr hx

/-! ## Lemmas about the node loop (pass 2) -/

theorem convert_node_ok {st : ConvState} {node : TFNode} {st' : ConvState}
    (h : convert_node st node = .ok st') :
    ∃ ast, foldE (convert_attr node) ⟨[], st.dtypes, st.attr_cnt⟩
        node.attrs = .ok ast ∧
      st' = { onnx_nodes := st.onnx_nodes ++
                [make_node node.type node.inputs (node_output_names node)
                  node.name ast.attr],
              op_cnt := bump st.op_cnt node.type,
              attr_cnt := ast.attr_cnt, dtypes := ast.dtypes } := by
  unfold convert_node at h
  cases hf : foldE (convert_attr node) ⟨[], st.dtypes, st.attr_cnt⟩
      node.attrs with
  | ok ast =>
    rw [hf] at h
    cases h
    exact ⟨ast, rfl, rfl⟩
  | error e => rw [hf] at h; cases h

/-- Converted nodes already emitted are never removed by later
iterations of the node loop. -/
theorem conv_fold_nodes_mono {ops : List TFNode} {st st' : ConvState}
    (h : foldE convert_node st ops = .ok st') {nd : OnnxNode}
    (hnd : nd ∈ st.onnx_nodes) : nd ∈ st'.onnx_nodes := by
  refine foldE_inv (fun s1 : ConvState => nd ∈ s1.onnx_nodes)
    ?_ h hnd
  intro s n s' _ hstep hP
  obtain ⟨ast, _, rfl⟩ := convert_node_ok hstep
  exact List.mem_append_left _ hP

/-- Keys of the `dtypes` table across the node loop: never removed, only
possibly extended by node names. -/
theorem conv_fold_dtypes_keys {ops : List TFNode} {st st' : ConvState}
    (h : foldE convert_node st ops = .ok st') (x : String) :
    (x ∈ keysOf st.dtypes → x ∈ keysOf st'.dtypes) ∧
    (x ∈ keysOf st'.dtypes → x ∈ keysOf st.dtypes ∨ x ∈ node_names ops) := by
  refine foldE_inv (fun s1 : ConvState =>
    (x ∈ keysOf st.dtypes → x ∈ keysOf s1.dtypes) ∧
    (x ∈ keysOf s1.dtypes → x ∈ keysOf st.dtypes ∨ x ∈ node_names ops))
    ?_ h ⟨id, Or.inl⟩
  intro s n s' hn hstep hP
  obtain ⟨ast, hfold, rfl⟩ := convert_node_ok hstep
  have hkeys := attr_fold_dtypes_keys hfold x
  constructor
  · intro hx
    exact hkeys.1 (hP.1 hx)
  · intro hx
    rcases hkeys.2 hx with hx1 | hx1
    · exact hP.2 hx1
    · exact Or.inr (hx1 ▸ List.mem_map.mpr ⟨n, hn, rfl⟩)

/-- The output names appearing in the emitted ONNX node list are exactly
the base ones plus all output names of the processed nodes. -/
theorem conv_fold_outputs {ops : List TFNode} :
    ∀ {st st' : ConvState}, foldE convert_node st ops = .ok st' →
    ∀ x : String,
    ((∃ nd ∈ st'.onnx_nodes, x ∈ nd.output) ↔
      (∃ nd ∈ st.onnx_nodes, x ∈ nd.output) ∨ x ∈ all_output_names ops) := by
  induction ops with
  | nil =>
    intro st st' h x
    simp only [foldE] at h
    cases h
    simp [all_output_names]
  | cons n rest ih =>
    intro st st' h x
    simp only [foldE] at h
    cases hs : convert_node st n with
    | error e => rw [hs] at h; cases h
    | ok s1 =>
      rw [hs] at h
      obtain ⟨ast, hfold, rfl⟩ := convert_node_ok hs
      rw [ih h x]
      simp only [all_output_names, List.mem_append, make_node,
        List.mem_singleton]
      constructor
      · rintro (⟨nd, hnd, hx⟩ | hx)
        · rcases hnd with hnd | rfl
          · exact Or.inl ⟨nd, hnd, hx⟩
          · exact Or.inr (Or.inl hx)
        · exact Or.inr (Or.inr hx)
      · rintro (⟨nd, hnd, hx⟩ | hx | hx)
        · exact Or.inl ⟨nd, Or.inl hnd, hx⟩
        · exact Or.inl ⟨_, Or.inr rfl, hx⟩
        · exact Or.inr hx

/-- Every processed node yields an emitted ONNX node assembled from its
attribute-loop result. -/
theorem conv_fold_node_exists {ops : List TFNode} :
    ∀ {st st' : ConvState}, foldE convert_node st ops = .ok st' →
    ∀ {n : TFNode}, n ∈ ops →
    ∃ dts acnt ast,
      foldE (convert_attr n) ⟨[], dts, acnt⟩ n.attrs = .ok ast ∧
      make_node n.type n.inputs (node_output_names n) n.name ast.attr ∈
        st'.onnx_nodes := by
  induction ops with
  | nil =>
    intro st st' _ n hn
    cases hn
  | cons m rest ih =>
    intro st st' h n hn
    simp only [foldE] at h
    cases hs : convert_node st m with
    | error e => rw [hs] at h; cases h
    | ok s1 =>
      rw [hs] at h
      rcases List.mem_cons.mp hn with hcase | hcase
      · subst hcase
        obtain ⟨ast, hfold, rfl⟩ := convert_node_ok hs
        refine ⟨st.dtypes, st.attr_cnt, ast, hfold, ?_⟩
        exact conv_fold_nodes_mono h (List.mem_append_right _
          (List.mem_singleton.mpr rfl))
      · exact ih h hcase

/-! ## Decomposition of a successful `tflist_to_onnx` run -/

theorem tflist_to_onnx_ok {ops : List TFNode}
    {ov : List (String × Option (List Int))} {r : ConvResult}
    (h : tflist_to_onnx ops ov = .ok r) :
    ∃ shapes dts st,
      foldE (scan_node ov) ([], []) ops = .ok (shapes, dts) ∧
      foldE convert_node ⟨[], [], [], dts⟩ ops = .ok st ∧
      r = ⟨st.onnx_nodes, st.op_cnt, st.attr_cnt, shapes, st.dtypes⟩ := by
  unfold tflist_to_onnx at h
  dsimp only at h
  split at h
  next shapes dts heq1 =>
    split at h
    next st heq2 =>
      cases h
      exact ⟨shapes, dts, st, heq1, heq2, rfl⟩
    next e heq2 => cases h
  next e heq1 => cases h

theorem mem_all_output_names_iff {ops : List TFNode} {x : String} :
    x ∈ all_output_names ops ↔
      ∃ n ∈ ops, ∃ out ∈ n.outputs, out.name = x := by
  induction ops with
  | nil => simp [all_output_names]
  | cons n rest ih =>
    simp only [all_output_names, List.mem_append, node_output_names,
      List.mem_map, ih, List.mem_cons]
    constructor
    · rintro (⟨out, hout, rfl⟩ | ⟨m, hm, out, hout, rfl⟩)
      · exact ⟨n, Or.inl rfl, out, hout, rfl⟩
      · exact ⟨m, Or.inr hm, out, hout, rfl⟩
    · rintro ⟨m, hm | hm, out, hout, rfl⟩
      · subst hm
        exact Or.inl ⟨out, hout, rfl⟩
      · exact Or.inr ⟨m, hm, out, hout, rfl⟩

/-! ## Helpers for splitting an attribute bag at one attribute -/

theorem mem_keysOf_of_mem {α : Type} {l : List (String × α)}
    {q : String × α} (hq : q ∈ l) : q.1 ∈ keysOf l :=
  List.mem_map.mpr ⟨q, hq, rfl⟩

theorem nodup_keys_tail {α : Type} {l1 l2 : List (String × α)}
    {p : String × α} (h : (keysOf (l1 ++ p :: l2)).Nodup)
    {q : String × α} (hq : q ∈ l2) : q.1 ≠ p.1 := by
  have hsplit : keysOf (l1 ++ p :: l2) = keysOf l1 ++ p.1 :: keysOf l2 := by
    simp [keysOf]
  rw [hsplit] at h
  have h1 : (p.1 :: keysOf l2).Nodup := h.of_append_right
  have h2 : p.1 ∉ keysOf l2 := (List.nodup_cons.mp h1).1
  intro heq
  exact h2 (heq ▸ mem_keysOf_of_mem hq)

/-! ## Tensor-codec helper lemmas -/

theorem tf_to_onnx_tensor_name {v : AttrValue} {nm : String}
    {t : OnnxTensor} (h : tf_to_onnx_tensor v nm = .ok t) : t.name = nm := by
  unfold tf_to_onnx_tensor get_tf_tensor_data at h
  cases v <;> simp at h
  case tensor nd =>
    by_cases hobj : nd.isObject <;> simp [hobj] at h
    · cases hca : coerceAll nd.elems with
      | some strs =>
        rw [hca] at h
        simp at h
        rw [← h]
      | none => rw [hca] at h; simp at h
    · rw [← h]

theorem coerceAll_none {elems : List NdElem} {e : NdElem} (he : e ∈ elems)
    (hc : coerceElem e = none) : coerceAll elems = none := by
  induction elems with
  | nil => cases he
  | cons a rest ih =>
    rcases List.mem_cons.mp he with hcase | hcase
    · subst hcase
      simp [coerceAll, hc]
    · cases ha : coerceElem a <;> simp [coerceAll, ha, ih hcase]

/-- A string/object tensor with an uncoercible element makes the codec
fail, whatever name is requested. -/
theorem tf_codec_object_error {nd : NdArray} (hobj : nd.isObject = true)
    {e : NdElem} (he : e ∈ nd.elems) (hc : coerceElem e = none)
    (name : String) :
    tf_to_onnx_tensor (.tensor nd) name = .error "Not support type" := by
  unfold tf_to_onnx_tensor get_tf_tensor_data
  simp [hobj, coerceAll_none he hc]

/-- The `"value"` iteration of the attribute loop fails on such a
tensor, from any state. -/
theorem convert_attr_value_fails {node : TFNode} {nd : NdArray}
    (hobj : nd.isObject = true) {e : NdElem} (he : e ∈ nd.elems)
    (hc : coerceElem e = none) (st : AttrState) :
    convert_attr node st ("value", .tensor nd) =
      .error "Not support type" := by
  rw [convert_attr_value_eq, tf_codec_object_error hobj he hc]

/-! ## Claim C3 -/

/-- C3 counterexample: the integer type code `0` (`DT_INVALID`) is not
`None` and is absent from `TF_TO_ONNX_DTYPE`, yet `map_tf_dtype` does
not fail on it — being falsy, it is returned unchanged.  This refutes
"the call fails with UnsupportedTypeError exactly when a non-None code
is absent from the table". -/
theorem c3_counterexample :
    TF_TO_ONNX_DTYPE.lookup 0 = none ∧
    (some 0 : Option Nat) ≠ none ∧
    map_tf_dtype (some 0) = .ok (some 0) := by decide

/-- C3 (amended): `map_tf_dtype` maps `None` to `None`, maps every code
present in the table to that table's target code (a pure function), and
fails exactly when a truthy (non-`None`, nonzero) code is absent from
the table — never silently defaulting. -/
theorem c3_map_tf_dtype :
    map_tf_dtype none = .ok none ∧
    (∀ c m, TF_TO_ONNX_DTYPE.lookup c = some m →
      map_tf_dtype (some c) = .ok (some m)) ∧
    (∀ d, (∃ e, map_tf_dtype d = .error e) ↔
      ∃ c, d = some c ∧ c ≠ 0 ∧ TF_TO_ONNX_DTYPE.lookup c = none) := by
  refine ⟨rfl, ?_, ?_⟩
  · intro c m hm
    have hc : c ≠ 0 := by
      intro h0
      subst h0
      have : TF_TO_ONNX_DTYPE.lookup 0 = none := by decide
      rw [this] at hm
      cases hm
    simp only [map_tf_dtype]
    rw [if_pos hc, hm]
  · intro d
    constructor
    · rintro ⟨e, he⟩
      cases d with
      | none => cases he
      | some c =>
        simp only [map_tf_dtype] at he
        by_cases hc : c ≠ 0
        · rw [if_pos hc] at he
          cases hl : TF_TO_ONNX_DTYPE.lookup c with
          | some m => rw [hl] at he; cases he
          | none => exact ⟨c, rfl, hc, hl⟩
        · rw [if_neg hc] at he
          cases he
    · rintro ⟨c, rfl, hc, hl⟩
      simp only [map_tf_dtype]
      rw [if_pos hc, hl]
      exact ⟨"UnsupportedTypeError", rfl⟩

/-- C3 witness: the amended theorem applied to `DT_FLOAT`. -/
theorem c3_witness : map_tf_dtype (some DT_FLOAT) = .ok (some onnx_FLOAT) :=
  c3_map_tf_dtype.2.1 DT_FLOAT onnx_FLOAT (by decide)

/-! ## Claim C10 -/

/-- C10: every falsy type code — `None` or the integer `0` — is returned
unchanged by `map_tf_dtype` and never raises; an error can arise only
for a truthy (non-`None`, nonzero) code, so the table lookup happens
only for truthy codes. -/
theorem c10_falsy_identity :
    (∀ d : Option Nat, (d = none ∨ d = some 0) → map_tf_dtype d = .ok d) ∧
    (∀ d e, map_tf_dtype d = .error e → ∃ c, d = some c ∧ c ≠ 0) := by
  constructor
  · rintro d (rfl | rfl) <;> rfl
  · intro d e he
    cases d with
    | none => cases he
    | some c =>
      simp only [map_tf_dtype] at he
      by_cases hc : c ≠ 0
      · exact ⟨c, rfl, hc⟩
      · rw [if_neg hc] at he
        cases he

/-- C10 witness: the integer `0` — falsy but not `None`, and absent from
the table — passes through unchanged. -/
theorem c10_witness : map_tf_dtype (some 0) = .ok (some 0) :=
  c10_falsy_identity.1 (some 0) (Or.inr rfl)

/-! ## Claim C4 -/

/-- C4: the Tensor Codec on a numeric tensor is a verbatim copy: the
produced payload carries exactly the original dims and the original
element values (round-trip identity), under the requested name. -/
theorem c4_numeric_roundtrip (dims : List Nat) (vals : List Int)
    (name : String) :
    tf_to_onnx_tensor (.tensor ⟨dims, false, vals.map NdElem.num⟩) name =
      .ok ⟨name, dims, false, vals, []⟩ := by
  unfold tf_to_onnx_tensor get_tf_tensor_data
  have hmap : (vals.map NdElem.num).map elemNum = vals := by
    induction vals with
    | nil => rfl
    | cons a rest ih => simp [elemNum, ih]
  simp [hmap]

/-! ## Claim C9 -/

/-- C9: with the fold-constants flag set, the transform sequence handed
to the external pipeline is exactly constant folding (errors ignored),
colocation-attribute removal, then the two batch-norm folds, in that
order; without the flag it is exactly the two batch-norm folds; the two
batch-norm folds are present in every call. -/
theorem c9_transform_sequence :
    tf_optimize_transforms true =
      ["fold_constants(ignore_errors=true)",
       "remove_attribute(attribute_name=_class)",
       "fold_batch_norms", "fold_old_batch_norms"] ∧
    tf_optimize_transforms false =
      ["fold_batch_norms", "fold_old_batch_norms"] ∧
    ∀ b, "fold_batch_norms" ∈ tf_optimize_transforms b ∧
      "fold_old_batch_norms" ∈ tf_optimize_transforms b := by
  refine ⟨rfl, rfl, ?_⟩
  intro b
  cases b <;> exact ⟨by decide, by decide⟩

/-! ## Claim C5 -/

/-- C5: a string/object tensor containing an element that cannot be
coerced to text makes the Tensor Codec fail with the
not-supported-type error (whatever name is requested), and when such a
tensor sits in a node's `"value"` attribute the failure propagates: the
whole `tflist_to_onnx` run cannot succeed. -/
theorem c5_string_tensor_failure (ops : List TFNode)
    (ov : List (String × Option (List Int))) (n : TFNode) (hn : n ∈ ops)
    (nd : NdArray) (hattr : ("value", AttrValue.tensor nd) ∈ n.attrs)
    (hobj : nd.isObject = true) (e : NdElem) (he : e ∈ nd.elems)
    (hc : coerceElem e = none) :
    (∀ name, tf_to_onnx_tensor (.tensor nd) name =
      .error "Not support type") ∧
    ∀ r, tflist_to_onnx ops ov ≠ .ok r := by
  constructor
  · intro name
    exact tf_codec_object_error hobj he hc name
  · intro r hok
    obtain ⟨shapes, dts, st, _, h2, _⟩ := tflist_to_onnx_ok hok
    obtain ⟨t, t', hcn⟩ := foldE_ok_of_mem h2 hn
    obtain ⟨ast, hfold, _⟩ := convert_node_ok hcn
    obtain ⟨u, u', hca⟩ := foldE_ok_of_mem hfold hattr
    rw [convert_attr_value_fails hobj he hc u] at hca
    cases hca

/-- C5 witness: the theorem applied to the concrete node `c5_node`. -/
theorem c5_witness :
    (∀ name, tf_to_onnx_tensor (.tensor ⟨[1], true, [.obj none]⟩) name =
      .error "Not support type") ∧
    ∀ r, tflist_to_onnx [c5_node] [] ≠ .ok r :=
  c5_string_tensor_failure [c5_node] [] c5_node (by decide)
    ⟨[1], true, [.obj none]⟩ (by decide) (by decide) (.obj none)
    (by decide) rfl

/-! ## Claim C7 -/

/-- C7: when a node's `"shape"` attribute reports unknown rank, is
absent, or is malformed (not a shape message), `get_tf_shape_attr`
returns `None`; the `"shape"` iteration of the attribute loop can never
fail (shape parsing is never fatal); and the converted node's attribute
mapping contains no `"shape"` entry. -/
theorem c7_shape_attr_unknown (ops : List TFNode)
    (ov : List (String × Option (List Int))) (r : ConvResult)
    (h : tflist_to_onnx ops ov = .ok r) (n : TFNode) (hn : n ∈ ops)
    (hshape : n.attrs.lookup "shape" = none ∨
      (∃ dims, n.attrs.lookup "shape" = some (.shapeAttr true dims)) ∨
      (∃ v, n.attrs.lookup "shape" = some v ∧
        ∀ ur dims, v ≠ AttrValue.shapeAttr ur dims)) :
    get_tf_shape_attr n = none ∧
    (∀ st v, ∃ st', convert_attr n st ("shape", v) = .ok st') ∧
    ∃ nd ∈ r.onnx_nodes, nd.name = n.name ∧
      nd.attrs.lookup "shape" = none := by
  have hget : get_tf_shape_attr n = none := by
    unfold get_tf_shape_attr
    rcases hshape with h1 | ⟨dims, h1⟩ | ⟨v, h1, h2⟩
    · rw [h1]
    · rw [h1]
      simp
    · rw [h1]
      cases v <;> first | rfl | exact absurd rfl (h2 _ _)
  refine ⟨hget, ?_, ?_⟩
  · intro st v
    rw [convert_attr_shape_eq, hget]
    exact ⟨_, rfl⟩
  · obtain ⟨shapesT, dts, st, _, h2, hr⟩ := tflist_to_onnx_ok h
    obtain ⟨dts0, acnt0, ast, hfold, hmem⟩ := conv_fold_node_exists h2 hn
    have hlook : ast.attr.lookup "shape" = none := by
      refine foldE_inv
        (fun t1 : AttrState => t1.attr.lookup "shape" = none)
        ?_ hfold rfl
      intro s q s' hq hstep hP
      obtain ⟨a, v⟩ := q
      by_cases hq1 : a = "shape"
      · subst hq1
        rw [convert_attr_shape_eq, hget] at hstep
        cases hstep
        exact hP
      · rw [convert_attr_lookup_preserve hstep
          (fun hh => hq1 hh.symm)
          (by rintro ⟨-, hto⟩; exact absurd hto (by decide)), hP]
    subst hr
    exact ⟨_, hmem, rfl, hlook⟩

/-- C7 witness: the theorem applied to `c7_node` (unknown rank). -/
theorem c7_witness :
    get_tf_shape_attr c7_node = none ∧
    (∀ st v, ∃ st', convert_attr c7_node st ("shape", v) = .ok st') ∧
    ∃ nd ∈ c7_R.onnx_nodes, nd.name = c7_node.name ∧
      nd.attrs.lookup "shape" = none :=
  c7_shape_attr_unknown [c7_node] [] c7_R rfl c7_node (by decide)
    (Or.inr (Or.inl ⟨[], by decide⟩))

/-! ## Claim C6 -/

/-- C6 counterexample: `c6_node` carries `"DstT"` with code `DT_FLOAT`,
but its literal `"to"` attribute is copied raw afterwards and overwrites
the type-mapped entry, so the converted mapping's `"to"` value is not
the Type-Mapped value of X.  This refutes the claim for "every node
carrying a DstT attribute". -/
theorem c6_counterexample :
    ¬ (∀ r, tflist_to_onnx [c6_node] [] = .ok r →
      ∀ nd ∈ r.onnx_nodes,
        nd.attrs.lookup "to" = some (.mappedType (some onnx_FLOAT))) := by
  intro hclaim
  have h := hclaim _ rfl
  revert h
  decide

/-- C6 (amended): for every node carrying `"DstT"` with a table-mapped
type code X, whose attribute names are unique and which does not itself
carry an attribute literally named `"to"`, the converted node's
attribute mapping contains `"to"` bound to the Type-Mapped value of X
and contains no `"DstT"` and no `"SrcT"` entries. -/
theorem c6_dstt_renamed (ops : List TFNode)
    (ov : List (String × Option (List Int))) (r : ConvResult)
    (h : tflist_to_onnx ops ov = .ok r) (n : TFNode) (hn : n ∈ ops)
    (X : Nat) (hattr : ("DstT", AttrValue.typ X) ∈ n.attrs)
    (hnodup : (keysOf n.attrs).Nodup) (hto : "to" ∉ keysOf n.attrs)
    (mX : Nat) (hX : TF_TO_ONNX_DTYPE.lookup X = some mX) :
    ∃ nd ∈ r.onnx_nodes, nd.name = n.name ∧
      nd.attrs.lookup "to" = some (.mappedType (some mX)) ∧
      nd.attrs.lookup "DstT" = none ∧ nd.attrs.lookup "SrcT" = none := by
  obtain ⟨shapesT, dts, st, _, h2, hr⟩ := tflist_to_onnx_ok h
  obtain ⟨dts0, acnt0, ast, hfold, hmem⟩ := conv_fold_node_exists h2 hn
  have hds := attr_fold_preserves_dstt_srct hfold
  obtain ⟨l1, l2, hsplit⟩ := List.append_of_mem hattr
  rw [hsplit] at hfold
  obtain ⟨t1, hfold1, hfold2⟩ := foldE_append_ok hfold
  simp only [foldE] at hfold2
  have hmap : map_tf_dtype_attr (AttrValue.typ X) =
      .ok (.mappedType (some mX)) := by
    have hX0 : X ≠ 0 := by
      intro h0
      subst h0
      have h00 : TF_TO_ONNX_DTYPE.lookup 0 = none := by decide
      rw [h00] at hX
      cases hX
    simp only [map_tf_dtype_attr, map_tf_dtype]
    rw [if_pos hX0, hX]
  rw [convert_attr_dstt_eq, hmap] at hfold2
  have hto2 : ast.attr.lookup "to" = some (.mappedType (some mX)) := by
    have hk : ∀ p ∈ l2, "to" ≠ p.1 ∧
        ¬(p.1 = "DstT" ∧ ("to" : String) = "to") := by
      intro p hp
      constructor
      · intro heq
        refine hto ?_
        have hpn : p ∈ n.attrs := by
          rw [hsplit]
          exact List.mem_append_right _ (List.mem_cons_of_mem _ hp)
        exact heq ▸ mem_keysOf_of_mem hpn
      · rintro ⟨hpd, -⟩
        exact (nodup_keys_tail (hsplit ▸ hnodup) hp) hpd
    have hpres := attr_fold_preserve hfold2 hk
    rw [hpres]
    exact lookup_upsert_self _ _ _
  subst hr
  exact ⟨_, hmem, rfl, hto2, hds.1, hds.2⟩

/-- C6 witness: the amended theorem applied to `c6w_node`. -/
theorem c6_witness :
    ∃ nd ∈ c6_R.onnx_nodes, nd.name = c6w_node.name ∧
      nd.attrs.lookup "to" = some (.mappedType (some onnx_FLOAT)) ∧
      nd.attrs.lookup "DstT" = none ∧ nd.attrs.lookup "SrcT" = none :=
  c6_dstt_renamed [c6w_node] [] c6_R rfl c6w_node (by decide) DT_FLOAT
    (by decide) (by decide) (by decide) onnx_FLOAT (by decide)

/-! ## Claim C8 -/

/-- C8 counterexample: when no explicit name is supplied,
`tf_to_onnx_tensor` produces a payload whose name is the empty string
(the Python default `name=""`), not a port-style name.  This refutes
"the produced target tensor payload carries a port-style name ... rather
than an empty name" for the no-name call. -/
theorem c8_counterexample :
    ¬ (∀ t, tf_to_onnx_tensor_noname c8_tensor = .ok t → t.name ≠ "") := by
  intro hclaim
  exact hclaim ⟨"", [2], false, [5, 7], []⟩ rfl rfl

/-- C8 (amended): `tf_to_onnx_tensor` itself defaults the name to the
empty string; the port-style name comes from the caller: the graph
converter always passes `port_name(node.name)` explicitly, so the
tensor embedded in a converted node's `"value"` attribute carries the
port-style name `node.name + ":0"`. -/
theorem c8_tensor_names (ops : List TFNode)
    (ov : List (String × Option (List Int))) (r : ConvResult)
    (h : tflist_to_onnx ops ov = .ok r) (n : TFNode) (hn : n ∈ ops)
    (nd0 : NdArray) (hattr : ("value", AttrValue.tensor nd0) ∈ n.attrs)
    (hnodup : (keysOf n.attrs).Nodup) :
    (∀ tensor t, tf_to_onnx_tensor_noname tensor = .ok t → t.name = "") ∧
    ∃ ond ∈ r.onnx_nodes, ond.name = n.name ∧
      ∃ t, ond.attrs.lookup "value" = some (.tensorVal t) ∧
        t.name = port_name n.name := by
  constructor
  · intro tensor t ht
    exact tf_to_onnx_tensor_name ht
  · obtain ⟨shapesT, dts, st, _, h2, hr⟩ := tflist_to_onnx_ok h
    obtain ⟨dts0, acnt0, ast, hfold, hmem⟩ := conv_fold_node_exists h2 hn
    obtain ⟨l1, l2, hsplit⟩ := List.append_of_mem hattr
    rw [hsplit] at hfold
    obtain ⟨t1, hfold1, hfold2⟩ := foldE_append_ok hfold
    simp only [foldE] at hfold2
    rw [convert_attr_value_eq] at hfold2
    cases hcv : tf_to_onnx_tensor (.tensor nd0) (port_name n.name) with
    | error e => rw [hcv] at hfold2; cases hfold2
    | ok ot =>
      rw [hcv] at hfold2
      have hname := tf_to_onnx_tensor_name hcv
      have hlook : ast.attr.lookup "value" = some (.tensorVal ot) := by
        have hk : ∀ p ∈ l2, "value" ≠ p.1 ∧
            ¬(p.1 = "DstT" ∧ ("value" : String) = "to") := by
          intro p hp
          constructor
          · intro heq
            exact (nodup_keys_tail (hsplit ▸ hnodup) hp) heq.symm
          · rintro ⟨-, hvt⟩
            exact absurd hvt (by decide)
        have hpres := attr_fold_preserve hfold2 hk
        rw [hpres]
        exact lookup_upsert_self _ _ _
      subst hr
      exact ⟨_, hmem, rfl, ot, hlook, hname⟩

/-- C8 witness: the amended theorem applied to `c8_node`. -/
theorem c8_witness :
    (∀ tensor t, tf_to_onnx_tensor_noname tensor = .ok t → t.name = "") ∧
    ∃ ond ∈ c8_R.onnx_nodes, ond.name = c8_node.name ∧
      ∃ t, ond.attrs.lookup "value" = some (.tensorVal t) ∧
        t.name = port_name c8_node.name :=
  c8_tensor_names [c8_node] [] c8_R rfl c8_node (by decide)
    ⟨[2], false, [.num 5, .num 7]⟩ (by decide) (by decide)

/-! ## Claim C1 -/

/-- C1 counterexample: the `"T"` attribute branch records a dtype entry
keyed by the node's *own name* (`"n"`), which is not an output name, so
after a successful run the dtype table's key set is strictly larger
than the set of output names of the converted nodes.  This refutes the
claimed equality with the dtype table. -/
theorem c1_counterexample :
    ¬ (∀ r, tflist_to_onnx [c1_node] [] = .ok r →
      ∀ x, ((∃ nd ∈ r.onnx_nodes, x ∈ nd.output) ↔
        x ∈ keysOf r.dtypes)) := by
  intro hclaim
  have h := (hclaim _ rfl "n").mpr (by decide)
  revert h
  decide

/-- C1 (amended): after a successful run, the set of output names of the
converted nodes equals exactly the key set of the shape table and is
contained in the key set of the dtype table; every extra dtype key is
the name of some node of the input list (recorded by the `"T"`
attribute branch). -/
theorem c1_output_tables (ops : List TFNode)
    (ov : List (String × Option (List Int))) (r : ConvResult)
    (h : tflist_to_onnx ops ov = .ok r) :
    (∀ x, (∃ nd ∈ r.onnx_nodes, x ∈ nd.output) ↔
      x ∈ keysOf r.output_shapes) ∧
    (∀ x, x ∈ keysOf r.output_shapes → x ∈ keysOf r.dtypes) ∧
    (∀ x, x ∈ keysOf r.dtypes →
      x ∈ keysOf r.output_shapes ∨ x ∈ node_names ops) := by
  obtain ⟨shapes, dts, st, h1, h2, hr⟩ := tflist_to_onnx_ok h
  subst hr
  have hshapes : ∀ x, x ∈ keysOf shapes ↔ x ∈ all_output_names ops := by
    intro x
    constructor
    · intro hx
      rcases (scan_fold_keys_subset h1 x).1 hx with hx0 | hx0
      · simp [keysOf] at hx0
      · exact hx0
    · intro hx
      obtain ⟨n, hn, out, hout, rfl⟩ := mem_all_output_names_iff.mp hx
      exact (scan_fold_keys_cover h1 hn hout).1
  have hdts : ∀ x, x ∈ keysOf dts ↔ x ∈ all_output_names ops := by
    intro x
    constructor
    · intro hx
      rcases (scan_fold_keys_subset h1 x).2 hx with hx0 | hx0
      · simp [keysOf] at hx0
      · exact hx0
    · intro hx
      obtain ⟨n, hn, out, hout, rfl⟩ := mem_all_output_names_iff.mp hx
      exact (scan_fold_keys_cover h1 hn hout).2
  refine ⟨?_, ?_, ?_⟩
  · intro x
    rw [conv_fold_outputs h2 x]
    constructor
    · rintro (⟨nd, hnd, -⟩ | hx)
      · cases hnd
      · exact (hshapes x).mpr hx
    · intro hx
      exact Or.inr ((hshapes x).mp hx)
  · intro x hx
    exact (conv_fold_dtypes_keys h2 x).1 ((hdts x).mpr ((hshapes x).mp hx))
  · intro x hx
    rcases (conv_fold_dtypes_keys h2 x).2 hx with hx0 | hx0
    · exact Or.inl ((hshapes x).mpr ((hdts x).mp hx0))
    · exact Or.inr hx0

/-- C1 witness: the amended theorem applied to `[c1_node]`. -/
theorem c1_witness :
    (∀ x, (∃ nd ∈ c1_R.onnx_nodes, x ∈ nd.output) ↔
      x ∈ keysOf c1_R.output_shapes) ∧
    (∀ x, x ∈ keysOf c1_R.output_shapes → x ∈ keysOf c1_R.dtypes) ∧
    (∀ x, x ∈ keysOf c1_R.dtypes →
      x ∈ keysOf c1_R.output_shapes ∨ x ∈ node_names [c1_node]) :=
  c1_output_tables [c1_node] [] c1_R rfl

/-! ## Claim C2 -/

/-- C2 counterexample: the override table contains an entry for `"n:0"`
(with value `None`), yet the recorded shape is the node's own static
shape `[2, 3]`, not the override value — `dict.get` cannot distinguish
a `None`-valued entry from an absent one, so a present entry does not
always take precedence.  This refutes "if the shape-override table
contains an entry for x, the shape recorded for x equals the override
value". -/
theorem c2_counterexample :
    ¬ (∀ r, tflist_to_onnx [c2_node] c2_ov = .ok r →
      ∀ x v, c2_ov.lookup x = some v →
        r.output_shapes.lookup x = some v) := by
  intro hclaim
  have h := hclaim _ rfl "n:0" none (by decide)
  revert h
  decide

/-- C2 (amended): override entries take precedence only when non-`None`:
if the override table yields a (non-`None`) shape for `x`, every
recorded shape for `x` equals that override value regardless of the
node's static shape; otherwise (entry absent *or* `None`-valued) the
recorded shape is the output's own static shape metadata
(`get_tf_tensor_shape`), which is itself `None` ("unknown") when the
static shape is unavailable. -/
theorem c2_shape_resolution (ops : List TFNode)
    (ov : List (String × Option (List Int))) (r : ConvResult)
    (h : tflist_to_onnx ops ov = .ok r) :
    (∀ x s, overrideGet ov x = some s →
      ∀ v, r.output_shapes.lookup x = some v → v = some s) ∧
    (∀ x v, overrideGet ov x = none →
      r.output_shapes.lookup x = some v →
      ∃ n ∈ ops, ∃ out ∈ n.outputs, out.name = x ∧
        v = get_tf_tensor_shape out) := by
  obtain ⟨shapes, dts, st, h1, h2, hr⟩ := tflist_to_onnx_ok h
  subst hr
  have hchar := scan_fold_shapes_char h1
    (by intro x v hx; simp [List.lookup] at hx)
  constructor
  · intro x s hov v hv
    obtain ⟨n, hn, out, hout, hname, hres⟩ := hchar x v hv
    subst hname
    rw [hres]
    simp [resolve_output_shape, hov]
  · intro x v hov hv
    obtain ⟨n, hn, out, hout, hname, hres⟩ := hchar x v hv
    subst hname
    refine ⟨n, hn, out, hout, rfl, ?_⟩
    rw [hres]
    simp [resolve_output_shape, hov]

/-- C2 witness: the amended theorem applied to `[c2_node]` and
`c2_ov`. -/
theorem c2_witness :
    (∀ x s, overrideGet c2_ov x = some s →
      ∀ v, c2_R.output_shapes.lookup x = some v → v = some s) ∧
    (∀ x v, overrideGet c2_ov x = none →
      c2_R.output_shapes.lookup x = some v →
      ∃ n ∈ [c2_node], ∃ out ∈ n.outputs, out.name = x ∧
        v = get_tf_tensor_shape out) :=
  c2_shape_resolution [c2_node] c2_ov c2_R rfl
